import Mathlib

/-!
# Verification of the logo_similarity pipeline

A shallow embedding of the extraction / hashing / clustering core
(`main.py`, `src/logo_extractor.py`, `src/image_processor.py`,
`src/clusterer.py`, `src/config.py`), together with proofs of the
specification's claims about it.

Conventions of the embedding:

* Python `dict`s are association lists in insertion order: assignment
  (`dictInsert`) overwrites in place when the key is present and appends
  otherwise, exactly like CPython dicts.
* The network, PIL's decoder and the `imagehash` strategies are external
  effects; they appear as explicit environment records of pure functions,
  with `Option` / `Except` standing for calls that can raise.
* The `async` scheduling of the coordinators is modelled explicitly: the
  batch/chunk splitting is kept, and the completion order that
  `asyncio.as_completed` yields inside one chunk is an arbitrary reordering
  parameter (the theorems assume only that it permutes its input).
-/

namespace LogoSim

/-- Python dict assignment `m[k] = v`: replace the value in place when the
key is present, append the pair otherwise, keeping insertion order. -/
def dictInsert {K V : Type} [DecidableEq K] (m : List (K × V)) (k : K) (v : V) :
    List (K × V) :=
  if m.any (fun p => decide (p.1 = k)) then
    m.map (fun p => if p.1 = k then (k, v) else p)
  else
    m ++ [(k, v)]

/-- Python `m[k]` / `m.get(k)`: the value stored for `k`, if any. -/
def lookupD {K V : Type} [DecidableEq K] : List (K × V) → K → Option V
  | [], _ => none
  | p :: rest, k => if p.1 = k then some p.2 else lookupD rest k

/-- Python `m.update(new)`: every pair of `new` assigned in order. -/
def dictUpdate {K V : Type} [DecidableEq K] (m new : List (K × V)) : List (K × V) :=
  new.foldl (fun acc p => dictInsert acc p.1 p.2) m

/-- Python slicing `l[i:i+size]` for `i in range(0, len(l), size)` — the
batch/chunk loops of `main.py`.  The fuel argument makes the recursion
structural; `l.length` is enough fuel for every positive `size` (a zero
`size` would raise `ValueError` in Python and is excluded by hypothesis
wherever this is used). -/
def chunkedF {α : Type} : Nat → Nat → List α → List (List α)
  | 0, _, _ => []
  | _, _, [] => []
  | fuel + 1, size, l => l.take size :: chunkedF fuel size (l.drop size)

/-- The consecutive chunks of `l` of length `size` (last one possibly
shorter). -/
def chunked {α : Type} (size : Nat) (l : List α) : List (List α) :=
  chunkedF l.length size l

/-- Fields of `src/config.py` that the modelled core reads.  The
network-only settings (`TIMEOUT`, `MAX_RETRIES`, `RETRY_DELAY`, user agents,
directories) belong to the opaque network layer and never touch the data
path. -/
structure Config where
  BATCH_SIZE : Nat := 100
  MAX_CONCURRENT : Nat := 20
  HASH_CHUNK_SIZE : Nat := 200
  EXACT_MATCH_THRESHOLD : Nat := 0
  NEAR_DUPLICATE_THRESHOLD : Nat := 5
  SIMILAR_THRESHOLD : Nat := 10
  NORMALIZE_SIZE : Nat := 64
  MIN_IMAGE_SIZE : Nat := 16
  deriving DecidableEq

/-- Configuration with every default of `src/config.py`. -/
def defaultConfig : Config := {}

namespace imagehash

/-- One hexadecimal digit as Python `int(s, 16)` reads it. -/
def hexDigit? (c : Char) : Option Nat :=
  if '0' ≤ c ∧ c ≤ '9' then some (c.toNat - '0'.toNat)
  else if 'a' ≤ c ∧ c ≤ 'f' then some (c.toNat - 'a'.toNat + 10)
  else if 'A' ≤ c ∧ c ≤ 'F' then some (c.toNat - 'A'.toNat + 10)
  else none

/-- Python `int(s, 16)` on the strings at hand: `none` (a `ValueError`) for
the empty string or any non-hex character.  CPython additionally tolerates
surrounding whitespace, a sign, a `0x` prefix and grouping underscores;
hash codes — `str()` of an `ImageHash` — are plain lowercase hex digits, so
restricting to plain digit strings is faithful on every string the pipeline
produces. -/
def parseHexNat (s : String) : Option Nat :=
  if s.isEmpty then none
  else
    s.data.foldl
      (fun acc c =>
        match acc, hexDigit? c with
        | some n, some d => some (16 * n + d)
        | _, _ => none)
      (some 0)

/-- Binary digits of `n`, least significant first, `[]` for `0`.  The fuel
makes the division recursion structural; any fuel at least the bit length
of `n` gives the exact digits. -/
def binDigitsRev : Nat → Nat → List Bool
  | 0, _ => []
  | fuel + 1, n => if n = 0 then [] else decide (n % 2 = 1) :: binDigitsRev fuel (n / 2)

/-- Python `'{:b}'.format(n)` as a bit list, most significant first
(`"0"`, that is `[false]`, for zero). -/
def pyBin (fuel : Nat) (n : Nat) : List Bool :=
  let bits := (binDigitsRev fuel n).reverse
  if bits.isEmpty then [false] else bits

/-- Python `int(numpy.sqrt(n))`: the floor of the square root (the float
detour is exact at every magnitude the pipeline meets).  Spelt as a bounded
count so that the kernel can evaluate it. -/
def floorSqrt (n : Nat) : Nat :=
  ((List.range (n + 1)).countP (fun k => decide (k * k ≤ n))) - 1

/-- Model of `imagehash.hex_to_hash(s)`, flattened to the row-major bit list
of the `ImageHash`'s boolean array:

    hash_size    = int(numpy.sqrt(len(s) * 4))
    binary_array = '{:0>{width}b}'.format(int(s, 16), width=hash_size ** 2)
    bit_rows     = slices of binary_array of length hash_size

The result is `none` exactly where the Python call raises an exception the
callers catch: a `ValueError` from `int(s, 16)`, or the `ValueError` that
`numpy.array` raises on ragged rows (`len(binary_array)` not a multiple of
`hash_size`, possible only when the value needs more bits than
`hash_size ** 2`). -/
def hex_to_hash (s : String) : Option (List Bool) :=
  match parseHexNat s with
  | none => none
  | some v =>
    let hashSize := floorSqrt (s.length * 4)
    let width := hashSize * hashSize
    let bits := pyBin (s.length * 4) v
    let padded := List.replicate (width - bits.length) false ++ bits
    if padded.length % hashSize = 0 then some padded else none

/-- Count of positions where two equally long flattened hash arrays differ:
`numpy.count_nonzero(a.flatten() != b.flatten())`. -/
def hammingBits (a b : List Bool) : Nat :=
  (List.zipWith (fun x y => x != y) a b).count true

/-- Model of `ImageHash.__sub__`: a `TypeError` (`none`) when the flattened
arrays have different sizes, the Hamming distance otherwise. -/
def imageHashSub (a b : List Bool) : Option Nat :=
  if a.length = b.length then some (hammingBits a b) else none

end imagehash

/-- The `'hashes'` sub-dict that `ImageProcessor.compute_hashes` builds; all
four keys are always present, so `hashes.get('phash')` is the `phash` field
(falsy exactly when that string is empty). -/
structure Hashes where
  phash : String
  dhash : String
  ahash : String
  whash : String
  deriving DecidableEq

/-- Fingerprint record, the dict `ImageProcessor.process_logo` returns:
`size` is split into `width` and `height`; `format` is PIL's `Image.format`,
which is `None` when no reader set it. -/
structure LogoRec where
  url : String
  hashes : Hashes
  width : Nat
  height : Nat
  format : Option String
  deriving DecidableEq

namespace Clusterer

/-- Model of `Clusterer._compute_hash_distance`: parse both hex codes and
subtract the `ImageHash`es; any exception (unparsable hex, ragged array,
size mismatch) is caught and becomes the sentinel `999`. -/
def _compute_hash_distance (hash1 hash2 : String) : Nat :=
  match imagehash.hex_to_hash hash1, imagehash.hex_to_hash hash2 with
  | some h1, some h2 =>
    match imagehash.imageHashSub h1 h2 with
    | some d => d
    | none => 999
  | _, _ => 999

/-- The record test `data and 'hashes' in data and data['hashes'].get('phash')`
of `cluster_by_similarity`: `None` is falsy, a typed record always carries
the `'hashes'` key, and `.get('phash')` is truthy iff the primary code is a
non-empty string. -/
def validRec : Option LogoRec → Bool
  | none => false
  | some r => decide (r.hashes.phash ≠ "")

/-- The node list `valid_domains` of `cluster_by_similarity`, in dict order. -/
def validDomains (logo_data : List (String × Option LogoRec)) : List String :=
  (logo_data.filter (fun p => validRec p.2)).map Prod.fst

/-- Lookup `logo_data[d]['hashes']['phash']`.  Every caller indexes only keys
of the dict holding a valid record, where the `""` default never fires. -/
def phashOf (logo_data : List (String × Option LogoRec)) (d : String) : String :=
  match lookupD logo_data d with
  | some (some r) => r.hashes.phash
  | _ => ""

/-- The nested edge loop of `cluster_by_similarity`: `domain1` runs over the
node list, `domain2` over the part after it, and the edge
`(domain1, domain2)` with weight `distance` is added iff
`distance <= NEAR_DUPLICATE_THRESHOLD`. -/
def pairEdges (cfg : Config) (logo_data : List (String × Option LogoRec)) :
    List String → List (String × String × Nat)
  | [] => []
  | d1 :: rest =>
    (rest.filterMap (fun d2 =>
      let distance := _compute_hash_distance (phashOf logo_data d1) (phashOf logo_data d2)
      if distance ≤ cfg.NEAR_DUPLICATE_THRESHOLD then some (d1, d2, distance) else none))
      ++ pairEdges cfg logo_data rest

/-- One union step of connected components: the classes meeting either
endpoint of the edge fuse into one class, every other class is kept. -/
def mergeStep (cs : List (List String)) (e : String × String) : List (List String) :=
  (cs.filter (fun c => c.contains e.1 || c.contains e.2)).flatten
    :: cs.filter (fun c => !(c.contains e.1 || c.contains e.2))

/-- Model of `networkx.connected_components` on the built graph: start from
singleton classes of the nodes and fuse classes along each undirected edge;
once every edge is processed the classes are exactly the connected
components.  A component is represented by the list of its members (the
source's `set` of domains). -/
def connectedComponents (nodes : List String) (edges : List (String × String)) :
    List (List String) :=
  edges.foldl mergeStep (nodes.map (fun n => [n]))

/-- Model of `Clusterer.cluster_by_similarity`. -/
def cluster_by_similarity (cfg : Config) (logo_data : List (String × Option LogoRec)) :
    List (List String) :=
  let valid_domains := validDomains logo_data
  let edges := pairEdges cfg logo_data valid_domains
  connectedComponents valid_domains (edges.map (fun e => (e.1, e.2.1)))

/-- Whether the built graph has an (undirected) edge between `x` and `y`. -/
def hasEdge (cfg : Config) (logo_data : List (String × Option LogoRec)) (x y : String) :
    Bool :=
  (pairEdges cfg logo_data (validDomains logo_data)).any
    (fun e => (e.1 == x && e.2.1 == y) || (e.1 == y && e.2.1 == x))

end Clusterer

namespace ImageProcessor

/-- A PIL image as the pipeline observes it: dimensions, colour mode, the
format tag the reader set, and an opaque handle standing for the pixel data.
Transformed copies keep the handle — together with the dimensions and mode it
determines the pixels, so the hash strategies can read everything they use
from this record. -/
structure PILImage where
  width : Nat
  height : Nat
  mode : String
  format : Option String
  content : Nat
  deriving DecidableEq

/-- PIL `Image.convert(mode)`: a converted copy whose `format` is unset. -/
def convert (mode : String) (img : PILImage) : PILImage :=
  { img with mode := mode, format := none }

/-- PIL `Image.resize((w, h), LANCZOS)`: a resampled copy whose `format` is
unset. -/
def resize (w h : Nat) (img : PILImage) : PILImage :=
  { img with width := w, height := h, format := none }

/-- External effects of `ImageProcessor`: the HTTP session, PIL's decoder,
and the four `imagehash` strategies.  `none` and `Except.error` stand for the
exceptions the source catches. -/
structure ImgEnv where
  get : String → Option (Nat × Nat)
  decode : Nat → Option PILImage
  phashF : PILImage → Except Unit String
  dhashF : PILImage → Except Unit String
  ahashF : PILImage → Except Unit String
  whashF : PILImage → Except Unit String

/-- Model of `ImageProcessor._validate_image`: reject when either dimension
is below `MIN_IMAGE_SIZE`. -/
def _validate_image (cfg : Config) (img : PILImage) : Bool :=
  !(img.width < cfg.MIN_IMAGE_SIZE || img.height < cfg.MIN_IMAGE_SIZE)

/-- Model of `ImageProcessor.download_image`: `None` on a network exception
(`env.get` yields nothing), a non-200 status, an undecodable body, or a
too-small image. -/
def download_image (env : ImgEnv) (cfg : Config) (url : String) : Option PILImage :=
  match env.get url with
  | none => none
  | some (status, body) =>
    if status ≠ 200 then none
    else
      match env.decode body with
      | none => none
      | some img => if _validate_image cfg img then some img else none

/-- First branch of `normalize_image`: convert to RGB when the mode is none
of RGB, L, RGBA. -/
def firstConvert (img : PILImage) : PILImage :=
  if ¬(img.mode ∈ (["RGB", "L", "RGBA"] : List String)) then convert "RGB" img else img

/-- Model of `ImageProcessor.normalize_image`, branch for branch: the mode
normalisation, the palette branch, then the resize to
`NORMALIZE_SIZE × NORMALIZE_SIZE`. -/
def normalize_image (cfg : Config) (img : PILImage) : PILImage :=
  let img := firstConvert img
  let img := if img.mode = "P" then convert "RGB" (convert "RGBA" img) else img
  resize cfg.NORMALIZE_SIZE cfg.NORMALIZE_SIZE img

/-- The function `normalize_image` computes once its palette branch is
removed; claim C10 states the two agree on every image. -/
def normalize_image_noP (cfg : Config) (img : PILImage) : PILImage :=
  resize cfg.NORMALIZE_SIZE cfg.NORMALIZE_SIZE (firstConvert img)

/-- Model of `ImageProcessor.compute_hashes`: the four codes of the
normalized image.  The Python dict literal evaluates its values left to
right, so the first strategy that raises aborts the whole call (the caller
catches it). -/
def compute_hashes (env : ImgEnv) (cfg : Config) (img : PILImage) :
    Except Unit Hashes :=
  let normalized := normalize_image cfg img
  match env.phashF normalized with
  | Except.error e => Except.error e
  | Except.ok p =>
    match env.dhashF normalized with
    | Except.error e => Except.error e
    | Except.ok d =>
      match env.ahashF normalized with
      | Except.error e => Except.error e
      | Except.ok a =>
        match env.whashF normalized with
        | Except.error e => Except.error e
        | Except.ok w => Except.ok { phash := p, dhash := d, ahash := a, whash := w }

/-- Model of `ImageProcessor.process_logo`: the record of a downloaded,
validated and hashed logo, `None` when any stage fails.  The record keeps the
original image's `size` and `format`, read before any normalisation. -/
def process_logo (env : ImgEnv) (cfg : Config) (url : String) : Option LogoRec :=
  match download_image env cfg url with
  | none => none
  | some img =>
    match compute_hashes env cfg img with
    | Except.error _ => none
    | Except.ok hs =>
      some { url := url, hashes := hs, width := img.width, height := img.height,
             format := img.format }

end ImageProcessor

namespace LogoExtractor

/-- The strategy chain of `LogoExtractor` as `extract_logo_url` sees it, per
base URL: what `_extract_from_html` and `_try_common_paths` return (each
swallows its own errors and yields a candidate URL or nothing), and whether
the chain escapes with an exception into `extract_logo_url`'s `except`
handler. -/
structure ChainEnv where
  fromHtml : String → Option String
  commonPaths : String → Option String
  chainRaises : String → Bool

/-- Model of `LogoExtractor.extract_logo_url`: the HTML strategy, then the
common-path strategy, then the favicon fallback; a raising chain is caught
and also yields the favicon fallback. -/
def extract_logo_url (env : ChainEnv) (domain : String) : String :=
  let base_url := "https://" ++ domain
  if env.chainRaises base_url then base_url ++ "/favicon.ico"
  else
    match env.fromHtml base_url with
    | some logo_url => logo_url
    | none =>
      match env.commonPaths base_url with
      | some logo_url => logo_url
      | none => base_url ++ "/favicon.ico"

/-- The value `extract_batch` stores for one gathered result:
`output[domain] = None` when the result is an exception instance, the URL
otherwise. -/
def storedResult : Except Unit String → Option String
  | Except.ok u => some u
  | Except.error _ => none

/-- Model of `LogoExtractor.extract_batch`: `asyncio.gather` keeps task
order, so results line up with `domains` by position; a worker escaping with
an exception would store `None`, and since `extract_logo_url` catches the
chain's failures itself every result is `Except.ok`. -/
def extract_batch (env : ChainEnv) (domains : List String) :
    List (String × Option String) :=
  let results : List (Except Unit String) :=
    domains.map (fun d => Except.ok (extract_logo_url env d))
  (domains.zip results).foldl
    (fun out p => dictInsert out p.1 (storedResult p.2))
    []

end LogoExtractor

namespace Pipeline

/-- Model of `LogoSimilarityPipeline.extract_all_logos`: consecutive batches
of `BATCH_SIZE` domains, each batch's result dict merged (`update`) into the
running `logo_urls` dict. -/
def extract_all_logos (env : LogoExtractor.ChainEnv) (cfg : Config)
    (domains : List String) : List (String × Option String) :=
  (chunked cfg.BATCH_SIZE domains).foldl
    (fun logo_urls batch => dictUpdate logo_urls (LogoExtractor.extract_batch env batch))
    []

/-- The filter of one `(d, u)` pair in the comprehension
`[(d, u) for d, u in logo_urls.items() if u]`: both `None` and the empty
string are falsy, so neither yields a work item. -/
def workItemOf (p : String × Option String) : Option (String × String) :=
  match p.2 with
  | some u => if u = "" then none else some (p.1, u)
  | none => none

/-- The work items of `process_all_images`:
`[(d, u) for d, u in logo_urls.items() if u]`. -/
def workItems (logo_urls : List (String × Option String)) : List (String × String) :=
  logo_urls.filterMap workItemOf

/-- One completed hashing task folded into the result dict
(`if data: logo_data[domain] = data`).  The worker's own `except` arm would
also yield `None`, repeating what `process_logo` already guarantees. -/
def hashStep (env : ImageProcessor.ImgEnv) (cfg : Config)
    (logo_data : List (String × LogoRec)) (item : String × String) :
    List (String × LogoRec) :=
  match ImageProcessor.process_logo env cfg item.2 with
  | some data => dictInsert logo_data item.1 data
  | none => logo_data

/-- Model of `LogoSimilarityPipeline.process_all_images`: work items are
split into chunks of `HASH_CHUNK_SIZE` and each chunk's results are folded in
completion order.  `sched` is the order `asyncio.as_completed` yields one
chunk's tasks — an arbitrary reordering (theorems assume it permutes its
input).  The `MAX_CONCURRENT` semaphore bounds in-flight tasks only and
touches no data. -/
def process_all_images (env : ImageProcessor.ImgEnv) (cfg : Config)
    (sched : List (String × String) → List (String × String))
    (logo_urls : List (String × Option String)) : List (String × LogoRec) :=
  (chunked cfg.HASH_CHUNK_SIZE (workItems logo_urls)).foldl
    (fun logo_data chunk => (sched chunk).foldl (hashStep env cfg) logo_data)
    []

end Pipeline

/-! ## Concrete fixtures

Small closed inputs used by the witness theorems and the concrete scenario
checks. -/

/-- A fingerprint record whose primary code is the given hex string. -/
def recOf (p : String) : Option LogoRec :=
  some { url := "", hashes := { phash := p, dhash := "", ahash := "", whash := "" },
         width := 64, height := 64, format := some "PNG" }

/-- Three fingerprinted domains whose primary codes sit at pairwise Hamming
distances 3 (a-b), 4 (b-c) and 7 (a-c). -/
def ldABC : List (String × Option LogoRec) :=
  [("a.com", recOf "0000000000000000"),
   ("b.com", recOf "0000000000000007"),
   ("c.com", recOf "000000000000007f")]

/-- Domains at boundary distances from `a.com`: 5 (b), 6 (c); `d.com` failed
fingerprinting and carries no record. -/
def ldBoundary : List (String × Option LogoRec) :=
  [("a.com", recOf "0000000000000000"),
   ("b.com", recOf "000000000000001f"),
   ("c.com", recOf "000000000000003f"),
   ("d.com", (none : Option LogoRec))]

/-- A strategy-chain environment: `a.com` found by the HTML strategy, the
chain raises on `b.com`, `c.com` found by the common-path strategy, every
other domain falls through the whole chain. -/
def chainEnvW : LogoExtractor.ChainEnv :=
  { fromHtml := fun b => if b == "https://a.com" then some "https://a.com/logo.png" else none
    commonPaths := fun b => if b == "https://c.com" then some "https://c.com/logo.png" else none
    chainRaises := fun b => b == "https://b.com" }

/-- A decodable 100 × 50 palette-mode image. -/
def imgW : ImageProcessor.PILImage :=
  { width := 100, height := 50, mode := "P", format := some "PNG", content := 1 }

/-- An image environment: one URL serves a decodable image with status 200,
one answers 404, everything else raises a network error; the four hash
strategies return fixed 64-bit codes. -/
def imgEnvW : ImageProcessor.ImgEnv :=
  { get := fun u =>
      if u == "https://ok.com/logo.png" then some (200, 1)
      else if u == "https://bad.com/logo.png" then some (404, 2)
      else none
    decode := fun b => if b == 1 then some imgW else none
    phashF := fun _ => Except.ok "aaaaaaaaaaaaaaaa"
    dhashF := fun _ => Except.ok "bbbbbbbbbbbbbbbb"
    ahashF := fun _ => Except.ok "cccccccccccccccc"
    whashF := fun _ => Except.ok "dddddddddddddddd" }

/-- A URL map exercising every hashing-coordinator case: success, HTTP
failure, empty URL, extraction value `None`. -/
def urlsW : List (String × Option String) :=
  [("ok.com", some "https://ok.com/logo.png"),
   ("bad.com", some "https://bad.com/logo.png"),
   ("empty.com", some ""),
   ("failed.com", none)]

/-! ## Helper lemmas: dicts, chunking, folds -/

section DictLemmas

variable {K V W : Type} [DecidableEq K]

theorem dictInsert_fresh (m : List (K × V)) (k : K) (v : V)
    (h : k ∉ m.map Prod.fst) : dictInsert m k v = m ++ [(k, v)] := by
  have hany : m.any (fun p => decide (p.1 = k)) = false := by
    rw [List.any_eq_false]
    intro p hp
    simp only [decide_eq_true_eq]
    intro hpk
    exact h (List.mem_map.mpr ⟨p, hp, hpk⟩)
  simp [dictInsert, hany]

theorem foldl_dictInsert_fresh :
    ∀ (l m : List (K × V)), (l.map Prod.fst).Nodup →
      (∀ x ∈ l.map Prod.fst, x ∉ m.map Prod.fst) →
      l.foldl (fun acc p => dictInsert acc p.1 p.2) m = m ++ l
  | [], m, _, _ => by simp
  | p :: rest, m, hnd, hfresh => by
    rw [List.map_cons] at hnd
    have hnd0 := List.nodup_cons.mp hnd
    simp only [List.foldl_cons]
    have hp : p.1 ∉ m.map Prod.fst := hfresh p.1 (by simp)
    rw [dictInsert_fresh m p.1 p.2 hp]
    have hfresh' : ∀ x ∈ rest.map Prod.fst, x ∉ (m ++ [(p.1, p.2)]).map Prod.fst := by
      intro x hx hmem
      rw [List.map_append] at hmem
      rcases List.mem_append.mp hmem with hm | hp1
      · exact hfresh x (by simp [hx]) hm
      · have hx1 : x = p.1 := by simpa using hp1
        exact hnd0.1 (hx1 ▸ hx)
    rw [foldl_dictInsert_fresh rest (m ++ [(p.1, p.2)]) hnd0.2 hfresh']
    simp

theorem lookupD_eq_none :
    ∀ (m : List (K × V)) (k : K), lookupD m k = none ↔ k ∉ m.map Prod.fst
  | [], k => by simp [lookupD]
  | p :: rest, k => by
    by_cases h : p.1 = k
    · simp [lookupD, h]
    · have h' : ¬(k = p.1) := fun hk => h hk.symm
      simp [lookupD, h, h', lookupD_eq_none rest k]

theorem lookupD_eq_some_iff :
    ∀ (m : List (K × V)), (m.map Prod.fst).Nodup → ∀ (k : K) (v : V),
      (lookupD m k = some v ↔ (k, v) ∈ m)
  | [], _, k, v => by simp [lookupD]
  | p :: rest, hnd, k, v => by
    rw [List.map_cons] at hnd
    have hnd0 := List.nodup_cons.mp hnd
    by_cases h : p.1 = k
    · subst h
      constructor
      · intro hv
        have hv' : p.2 = v := by simpa [lookupD] using hv
        rw [← hv']
        exact List.mem_cons_self _ _
      · intro hmem
        rcases List.mem_cons.mp hmem with heq | hrest
        · have hv : v = p.2 := congrArg Prod.snd heq
          simp [lookupD, hv]
        · exact absurd (List.mem_map.mpr ⟨(p.1, v), hrest, rfl⟩) hnd0.1
    · have h' : ¬((k, v) = p) := fun he => h (congrArg Prod.fst he).symm
      have hskip : lookupD (p :: rest) k = lookupD rest k := by simp [lookupD, h]
      rw [hskip, lookupD_eq_some_iff rest hnd0.2 k v, List.mem_cons]
      exact ⟨fun hm => Or.inr hm, fun hm => hm.resolve_left h'⟩

theorem lookupD_perm (m₁ m₂ : List (K × V)) (hp : List.Perm m₁ m₂)
    (hnd : (m₁.map Prod.fst).Nodup) (k : K) : lookupD m₁ k = lookupD m₂ k := by
  have hkeys := hp.map Prod.fst
  have hnd₂ : (m₂.map Prod.fst).Nodup := hkeys.nodup hnd
  cases hv : lookupD m₁ k with
  | none =>
    have h1 := (lookupD_eq_none m₁ k).mp hv
    exact ((lookupD_eq_none m₂ k).mpr (fun hm => h1 (hkeys.mem_iff.mpr hm))).symm
  | some v =>
    have h1 := (lookupD_eq_some_iff m₁ hnd k v).mp hv
    exact ((lookupD_eq_some_iff m₂ hnd₂ k v).mpr (hp.mem_iff.mp h1)).symm

theorem lookupD_value_unique (m : List (K × V)) (hnd : (m.map Prod.fst).Nodup)
    (k : K) (a b : V) (ha : (k, a) ∈ m) (hb : (k, b) ∈ m) : a = b := by
  have h1 := (lookupD_eq_some_iff m hnd k a).mpr ha
  have h2 := (lookupD_eq_some_iff m hnd k b).mpr hb
  rw [h1] at h2
  exact Option.some.inj h2

end DictLemmas

section ChunkLemmas

variable {α β : Type}

theorem chunkedF_flatten :
    ∀ (fuel size : Nat) (l : List α), 0 < size → l.length ≤ fuel →
      (chunkedF fuel size l).flatten = l
  | 0, _, l, _, hf => by
    have hl : l = [] := List.length_eq_zero.mp (Nat.le_zero.mp hf)
    simp [hl, chunkedF]
  | fuel + 1, size, [], _, _ => by simp [chunkedF]
  | fuel + 1, size, a :: l, hs, hf => by
    simp only [chunkedF, List.flatten_cons]
    have hlen : ((a :: l).drop size).length ≤ fuel := by
      rw [List.length_drop]
      simp only [List.length_cons] at hf ⊢
      omega
    rw [chunkedF_flatten fuel size ((a :: l).drop size) hs hlen]
    exact List.take_append_drop size (a :: l)

theorem chunked_flatten (size : Nat) (l : List α) (hs : 0 < size) :
    (chunked size l).flatten = l :=
  chunkedF_flatten l.length size l hs (Nat.le_refl _)

theorem zip_map_self : ∀ (l : List α) (f : α → β), l.zip (l.map f) = l.map (fun a => (a, f a))
  | [], _ => rfl
  | a :: l, f => by simp [zip_map_self l f]

end ChunkLemmas

section ExtractLemmas

theorem foldl_dictInsert_map {K V W : Type} [DecidableEq K] (g : V → W) :
    ∀ (l : List (K × V)) (m : List (K × W)),
      l.foldl (fun out p => dictInsert out p.1 (g p.2)) m
        = (l.map (fun p => (p.1, g p.2))).foldl (fun out p => dictInsert out p.1 p.2) m
  | [], _ => rfl
  | p :: l, m => by
    simp only [List.foldl_cons, List.map_cons]
    exact foldl_dictInsert_map g l _

theorem extract_batch_eq (env : LogoExtractor.ChainEnv) (domains : List String)
    (hnd : domains.Nodup) :
    LogoExtractor.extract_batch env domains
      = domains.map (fun d => (d, some (LogoExtractor.extract_logo_url env d))) := by
  have hzeta : LogoExtractor.extract_batch env domains
      = (domains.zip (domains.map
          (fun d => (Except.ok (LogoExtractor.extract_logo_url env d) : Except Unit String)))).foldl
          (fun out p => dictInsert out p.1 (LogoExtractor.storedResult p.2))
          [] := rfl
  rw [hzeta, zip_map_self, foldl_dictInsert_map LogoExtractor.storedResult, List.map_map]
  have hfun : ((fun p => (p.1, LogoExtractor.storedResult p.2))
        ∘ fun a => (a, (Except.ok (LogoExtractor.extract_logo_url env a) : Except Unit String)))
      = fun d => (d, some (LogoExtractor.extract_logo_url env d)) := by
    funext d
    rfl
  rw [hfun]
  have hkeys : ((domains.map (fun d => (d, some (LogoExtractor.extract_logo_url env d)))).map
      Prod.fst) = domains := by
    rw [List.map_map]
    have hid : (Prod.fst ∘ fun d => (d, some (LogoExtractor.extract_logo_url env d)))
        = id := by
      funext d
      rfl
    rw [hid, List.map_id]
  rw [foldl_dictInsert_fresh _ [] (by rw [hkeys]; exact hnd)
    (fun x _ => List.not_mem_nil x)]
  rw [List.nil_append]

theorem extract_all_foldl (env : LogoExtractor.ChainEnv) :
    ∀ (chunks : List (List String)) (m : List (String × Option String)),
      (chunks.flatten).Nodup →
      (∀ x ∈ chunks.flatten, x ∉ m.map Prod.fst) →
      chunks.foldl (fun acc b => dictUpdate acc (LogoExtractor.extract_batch env b)) m
        = m ++ (chunks.flatten).map
            (fun d => (d, some (LogoExtractor.extract_logo_url env d)))
  | [], m, _, _ => by simp
  | b :: rest, m, hnd, hfresh => by
    rw [List.flatten_cons] at hnd hfresh
    have hb : b.Nodup := (List.nodup_append.mp hnd).1
    have hrest : rest.flatten.Nodup := (List.nodup_append.mp hnd).2.1
    have hdisj : b.Disjoint rest.flatten := (List.nodup_append.mp hnd).2.2
    simp only [List.foldl_cons]
    have hstep : dictUpdate m (LogoExtractor.extract_batch env b)
        = m ++ b.map (fun d => (d, some (LogoExtractor.extract_logo_url env d))) := by
      unfold dictUpdate
      rw [extract_batch_eq env b hb]
      have hkeys : ((b.map (fun d => (d, some (LogoExtractor.extract_logo_url env d)))).map
          Prod.fst) = b := by
        rw [List.map_map]
        have hid : (Prod.fst ∘ fun d => (d, some (LogoExtractor.extract_logo_url env d)))
            = id := by
          funext d
          rfl
        rw [hid, List.map_id]
      refine foldl_dictInsert_fresh _ m (by rw [hkeys]; exact hb) ?_
      rw [hkeys]
      intro x hx
      exact hfresh x (List.mem_append.mpr (Or.inl hx))
    rw [hstep]
    rw [extract_all_foldl env rest
      (m ++ b.map (fun d => (d, some (LogoExtractor.extract_logo_url env d)))) hrest ?_]
    · rw [List.flatten_cons, List.map_append, List.append_assoc]
    · intro x hx hmem
      rw [List.map_append] at hmem
      rcases List.mem_append.mp hmem with hm | hbm
      · exact hfresh x (List.mem_append.mpr (Or.inr hx)) hm
      · have : x ∈ b := by
          rw [List.map_map] at hbm
          simpa [Function.comp] using hbm
        exact hdisj this hx

end ExtractLemmas

section HashLemmas

/-- The key-preserving filter the hashing coordinator applies to one work
item: the fingerprint entry if `process_logo` succeeded on the item's URL. -/
def fingerprintOf (env : ImageProcessor.ImgEnv) (cfg : Config) (p : String × String) :
    Option (String × LogoRec) :=
  (ImageProcessor.process_logo env cfg p.2).map (fun r => (p.1, r))

theorem foldl_hashStep (env : ImageProcessor.ImgEnv) (cfg : Config) :
    ∀ (L : List (String × String)) (acc : List (String × LogoRec)),
      L.foldl (Pipeline.hashStep env cfg) acc
        = (L.filterMap (fingerprintOf env cfg)).foldl
            (fun a q => dictInsert a q.1 q.2) acc
  | [], _ => rfl
  | p :: L, acc => by
    simp only [List.foldl_cons, List.filterMap_cons]
    cases hpl : ImageProcessor.process_logo env cfg p.2 with
    | none =>
      simp only [fingerprintOf, hpl, Option.map_none']
      rw [show Pipeline.hashStep env cfg acc p = acc by simp [Pipeline.hashStep, hpl]]
      exact foldl_hashStep env cfg L acc
    | some r =>
      simp only [fingerprintOf, hpl, Option.map_some']
      rw [show Pipeline.hashStep env cfg acc p = dictInsert acc p.1 r by
        simp [Pipeline.hashStep, hpl]]
      simp only [List.foldl_cons]
      exact foldl_hashStep env cfg L _

theorem keys_filterMap_sublist {α β γ : Type} (F : (α × β) → Option (α × γ))
    (hF : ∀ p q, F p = some q → q.1 = p.1) :
    ∀ l : List (α × β),
      List.Sublist ((l.filterMap F).map Prod.fst) (l.map Prod.fst)
  | [] => List.Sublist.refl _
  | p :: l => by
    cases hq : F p with
    | none =>
      simp only [List.filterMap_cons, hq, List.map_cons]
      exact (keys_filterMap_sublist F hF l).cons p.1
    | some q =>
      simp only [List.filterMap_cons, hq, List.map_cons]
      rw [hF p q hq]
      exact (keys_filterMap_sublist F hF l).cons₂ p.1

theorem fingerprintOf_key (env : ImageProcessor.ImgEnv) (cfg : Config)
    (p : String × String) (q : String × LogoRec) (h : fingerprintOf env cfg p = some q) :
    q.1 = p.1 := by
  unfold fingerprintOf at h
  cases hpl : ImageProcessor.process_logo env cfg p.2 with
  | none => rw [hpl] at h; cases h
  | some r =>
    rw [hpl] at h
    cases h
    rfl

theorem workItems_eq_filterMap (urls : List (String × Option String)) :
    Pipeline.workItems urls = urls.filterMap Pipeline.workItemOf := rfl

theorem workItemOf_none (k : String) : Pipeline.workItemOf (k, none) = none := rfl

theorem workItemOf_some (k u : String) :
    Pipeline.workItemOf (k, some u) = if u = "" then none else some (k, u) := rfl

theorem workItemOf_key :
    ∀ (p : String × Option String) (q : String × String),
      Pipeline.workItemOf p = some q → q.1 = p.1
  | (k, none), q, h => by rw [workItemOf_none] at h; cases h
  | (k, some u), q, h => by
    rw [workItemOf_some] at h
    by_cases hu : u = ""
    · rw [if_pos hu] at h; cases h
    · rw [if_neg hu] at h
      cases h
      rfl

theorem workItems_cons (p : String × Option String) (urls : List (String × Option String)) :
    Pipeline.workItems (p :: urls)
      = match Pipeline.workItemOf p with
        | none => Pipeline.workItems urls
        | some q => q :: Pipeline.workItems urls := by
  rw [workItems_eq_filterMap, List.filterMap_cons, ← workItems_eq_filterMap]
  cases Pipeline.workItemOf p <;> rfl

theorem mem_workItems :
    ∀ (urls : List (String × Option String)) (d u : String),
      ((d, u) ∈ Pipeline.workItems urls ↔ ((d, some u) ∈ urls ∧ u ≠ ""))
  | [], d, u => by simp [Pipeline.workItems]
  | (k, none) :: urls, d, u => by
    rw [workItems_cons, workItemOf_none]
    show (d, u) ∈ Pipeline.workItems urls ↔ _
    rw [mem_workItems urls d u, List.mem_cons]
    constructor
    · exact fun h => ⟨Or.inr h.1, h.2⟩
    · rintro ⟨hc | hm, hu⟩
      · exact absurd (congrArg Prod.snd hc) (by simp)
      · exact ⟨hm, hu⟩
  | (k, some w) :: urls, d, u => by
    rw [workItems_cons, workItemOf_some]
    by_cases hw : w = ""
    · rw [if_pos hw]
      show (d, u) ∈ Pipeline.workItems urls ↔ _
      rw [mem_workItems urls d u, List.mem_cons]
      constructor
      · exact fun h => ⟨Or.inr h.1, h.2⟩
      · rintro ⟨hc | hm, hu⟩
        · have : some u = some w := congrArg Prod.snd hc
          exact absurd (hw ▸ Option.some.inj this) hu
        · exact ⟨hm, hu⟩
    · rw [if_neg hw]
      show (d, u) ∈ (k, w) :: Pipeline.workItems urls ↔ _
      rw [List.mem_cons, mem_workItems urls d u]
      simp only [List.mem_cons, Prod.mk.injEq, Option.some.injEq]
      constructor
      · rintro (⟨rfl, rfl⟩ | ⟨hm, hu⟩)
        · exact ⟨Or.inl ⟨rfl, rfl⟩, hw⟩
        · exact ⟨Or.inr hm, hu⟩
      · rintro ⟨⟨rfl, rfl⟩ | hm, hu⟩
        · exact Or.inl ⟨rfl, rfl⟩
        · exact Or.inr ⟨hm, hu⟩

theorem sched_chunks_perm (sched : List (String × String) → List (String × String))
    (hs : ∀ l, List.Perm (sched l) l) :
    ∀ chunks : List (List (String × String)),
      List.Forall₂ (fun a b => List.Perm a b) (chunks.map sched) chunks
  | [] => List.Forall₂.nil
  | c :: cs => List.Forall₂.cons (hs c) (sched_chunks_perm sched hs cs)

theorem process_all_images_eq (env : ImageProcessor.ImgEnv) (cfg : Config)
    (sched : List (String × String) → List (String × String))
    (urls : List (String × Option String))
    (hc : 0 < cfg.HASH_CHUNK_SIZE) (hs : ∀ l, List.Perm (sched l) l)
    (hnd : (urls.map Prod.fst).Nodup) (d : String) :
    lookupD (Pipeline.process_all_images env cfg sched urls) d
      = lookupD ((Pipeline.workItems urls).filterMap (fingerprintOf env cfg)) d := by
  have hitems : (chunked cfg.HASH_CHUNK_SIZE (Pipeline.workItems urls)).flatten
      = Pipeline.workItems urls := chunked_flatten _ _ hc
  have h1 : Pipeline.process_all_images env cfg sched urls
      = (((chunked cfg.HASH_CHUNK_SIZE (Pipeline.workItems urls)).map sched).flatten).foldl
          (Pipeline.hashStep env cfg) [] := by
    rw [List.foldl_flatten, List.foldl_map]
    rfl
  have hperm : List.Perm
      (((chunked cfg.HASH_CHUNK_SIZE (Pipeline.workItems urls)).map sched).flatten)
      (Pipeline.workItems urls) := by
    have h := List.Perm.flatten_congr
      (sched_chunks_perm sched hs (chunked cfg.HASH_CHUNK_SIZE (Pipeline.workItems urls)))
    rwa [hitems] at h
  have hndItems : ((Pipeline.workItems urls).map Prod.fst).Nodup := by
    rw [workItems_eq_filterMap]
    exact (keys_filterMap_sublist Pipeline.workItemOf workItemOf_key urls).nodup hnd
  have hndL : ((((chunked cfg.HASH_CHUNK_SIZE (Pipeline.workItems urls)).map
      sched).flatten).map Prod.fst).Nodup :=
    ((hperm.map Prod.fst).symm).nodup hndItems
  have hndL' : (((((chunked cfg.HASH_CHUNK_SIZE (Pipeline.workItems urls)).map
      sched).flatten).filterMap (fingerprintOf env cfg)).map Prod.fst).Nodup :=
    (keys_filterMap_sublist (fingerprintOf env cfg) (fingerprintOf_key env cfg) _).nodup hndL
  rw [h1, foldl_hashStep env cfg]
  rw [foldl_dictInsert_fresh _ [] hndL' (fun x _ => List.not_mem_nil x)]
  rw [List.nil_append]
  exact lookupD_perm _ _ (hperm.filterMap (fingerprintOf env cfg)) hndL' d

end HashLemmas

/-! ## Helper lemmas: hash distance and clustering -/

section DistanceLemmas

theorem hammingBits_nil_left (b : List Bool) : imagehash.hammingBits [] b = 0 := by
  cases b <;> rfl

theorem hammingBits_nil_right (a : List Bool) : imagehash.hammingBits a [] = 0 := by
  cases a <;> rfl

theorem hammingBits_cons (x y : Bool) (a b : List Bool) :
    imagehash.hammingBits (x :: a) (y :: b)
      = (if (x != y) = true then 1 else 0) + imagehash.hammingBits a b := by
  unfold imagehash.hammingBits
  rw [List.zipWith_cons_cons, List.count_cons]
  cases hxy : x != y <;> simp [hxy, Nat.add_comm]

theorem hammingBits_comm : ∀ (a b : List Bool),
    imagehash.hammingBits a b = imagehash.hammingBits b a
  | [], b => by rw [hammingBits_nil_left, hammingBits_nil_right]
  | a :: as, [] => by rw [hammingBits_nil_left, hammingBits_nil_right]
  | x :: as, y :: bs => by
    rw [hammingBits_cons, hammingBits_cons, hammingBits_comm as bs]
    cases x <;> cases y <;> rfl

theorem hash_distance_comm (a b : String) :
    Clusterer._compute_hash_distance a b = Clusterer._compute_hash_distance b a := by
  unfold Clusterer._compute_hash_distance
  cases imagehash.hex_to_hash a with
  | none => cases imagehash.hex_to_hash b <;> rfl
  | some ha =>
    cases imagehash.hex_to_hash b with
    | none => rfl
    | some hb =>
      show (match imagehash.imageHashSub ha hb with | some d => d | none => 999)
          = (match imagehash.imageHashSub hb ha with | some d => d | none => 999)
      by_cases h : ha.length = hb.length
      · rw [show imagehash.imageHashSub ha hb = some (imagehash.hammingBits ha hb) from by
            unfold imagehash.imageHashSub; rw [if_pos h]]
        rw [show imagehash.imageHashSub hb ha = some (imagehash.hammingBits hb ha) from by
            unfold imagehash.imageHashSub; rw [if_pos h.symm]]
        rw [hammingBits_comm ha hb]
      · rw [show imagehash.imageHashSub ha hb = none from by
            unfold imagehash.imageHashSub; rw [if_neg h]]
        rw [show imagehash.imageHashSub hb ha = none from by
            unfold imagehash.imageHashSub; rw [if_neg (fun hh => h hh.symm)]]

theorem hamming_triple_even (a : List Bool) : ∀ (b c : List Bool),
    a.length = b.length → b.length = c.length →
    (imagehash.hammingBits a b + imagehash.hammingBits b c
      + imagehash.hammingBits a c) % 2 = 0 := by
  induction a with
  | nil =>
    intro b c hab hbc
    have hb : b = [] := List.length_eq_zero.mp hab.symm
    have hc : c = [] := List.length_eq_zero.mp (hb ▸ hbc).symm
    subst hb; subst hc
    rfl
  | cons x a ih =>
    intro b c hab hbc
    cases b with
    | nil => simp at hab
    | cons y b =>
      cases c with
      | nil => simp at hbc
      | cons z c =>
        have h1 : a.length = b.length := by simpa using hab
        have h2 : b.length = c.length := by simpa using hbc
        have ih' := ih b c h1 h2
        rw [hammingBits_cons, hammingBits_cons, hammingBits_cons]
        cases x <;> cases y <;> cases z <;> simp <;> omega

theorem distance_eq_hamming (h1 h2 : String) (d : Nat)
    (hd : Clusterer._compute_hash_distance h1 h2 = d) (hne : d ≠ 999) :
    ∃ b1 b2, imagehash.hex_to_hash h1 = some b1 ∧ imagehash.hex_to_hash h2 = some b2 ∧
      b1.length = b2.length ∧ imagehash.hammingBits b1 b2 = d := by
  unfold Clusterer._compute_hash_distance at hd
  cases hp1 : imagehash.hex_to_hash h1 with
  | none =>
    rw [hp1] at hd
    cases imagehash.hex_to_hash h2 <;> simp at hd <;> omega
  | some b1 =>
    cases hp2 : imagehash.hex_to_hash h2 with
    | none =>
      rw [hp1, hp2] at hd
      simp at hd
      omega
    | some b2 =>
      rw [hp1, hp2] at hd
      have hd' : (match imagehash.imageHashSub b1 b2 with
          | some w => w | none => 999) = d := hd
      by_cases hl : b1.length = b2.length
      · refine ⟨b1, b2, rfl, rfl, hl, ?_⟩
        rw [show imagehash.imageHashSub b1 b2 = some (imagehash.hammingBits b1 b2) from by
          unfold imagehash.imageHashSub; rw [if_pos hl]] at hd'
        exact hd'
      · rw [show imagehash.imageHashSub b1 b2 = none from by
          unfold imagehash.imageHashSub; rw [if_neg hl]] at hd'
        have h999 : (999 : Nat) = d := hd'
        omega

end DistanceLemmas

section ClusterLemmas

theorem mergeStep_flatten_perm (cs : List (List String)) (e : String × String) :
    List.Perm (Clusterer.mergeStep cs e).flatten cs.flatten := by
  unfold Clusterer.mergeStep
  rw [List.flatten_cons, ← List.flatten_append]
  exact (List.filter_append_perm _ cs).flatten

theorem foldl_mergeStep_perm :
    ∀ (edges : List (String × String)) (cs : List (List String)),
      List.Perm ((edges.foldl Clusterer.mergeStep cs).flatten) cs.flatten
  | [], _ => List.Perm.refl _
  | e :: es, cs =>
    (foldl_mergeStep_perm es (Clusterer.mergeStep cs e)).trans
      (mergeStep_flatten_perm cs e)

theorem flatten_map_singleton :
    ∀ (l : List String), (l.map (fun n => [n])).flatten = l
  | [] => rfl
  | x :: l => by simp [flatten_map_singleton l]

theorem clusters_flatten_perm (cfg : Config) (ld : List (String × Option LogoRec)) :
    List.Perm (Clusterer.cluster_by_similarity cfg ld).flatten
      (Clusterer.validDomains ld) := by
  unfold Clusterer.cluster_by_similarity Clusterer.connectedComponents
  refine (foldl_mergeStep_perm _ _).trans ?_
  rw [flatten_map_singleton]

theorem validDomains_nodup (ld : List (String × Option LogoRec))
    (hnd : (ld.map Prod.fst).Nodup) : (Clusterer.validDomains ld).Nodup := by
  unfold Clusterer.validDomains
  exact ((List.filter_sublist ld).map Prod.fst).nodup hnd

theorem pair_sublist_cons_iff (x y d : String) (l : List String) :
    List.Sublist [x, y] (d :: l) ↔ ((x = d ∧ y ∈ l) ∨ List.Sublist [x, y] l) := by
  constructor
  · intro h
    cases h with
    | cons _ h' => exact Or.inr h'
    | cons₂ _ h' => exact Or.inl ⟨rfl, List.singleton_sublist.mp h'⟩
  · rintro (⟨rfl, hy⟩ | h)
    · exact List.Sublist.cons₂ x (List.singleton_sublist.mpr hy)
    · exact List.Sublist.cons d h

theorem mem_pairEdges (cfg : Config) (ld : List (String × Option LogoRec)) :
    ∀ (l : List String) (x y : String) (w : Nat),
      ((x, y, w) ∈ Clusterer.pairEdges cfg ld l ↔
        (List.Sublist [x, y] l
          ∧ w = Clusterer._compute_hash_distance (Clusterer.phashOf ld x)
              (Clusterer.phashOf ld y)
          ∧ w ≤ cfg.NEAR_DUPLICATE_THRESHOLD))
  | [], x, y, w => by simp [Clusterer.pairEdges]
  | d :: l, x, y, w => by
    rw [show Clusterer.pairEdges cfg ld (d :: l)
        = (l.filterMap (fun d2 =>
            if Clusterer._compute_hash_distance (Clusterer.phashOf ld d)
                (Clusterer.phashOf ld d2) ≤ cfg.NEAR_DUPLICATE_THRESHOLD
            then some (d, d2, Clusterer._compute_hash_distance (Clusterer.phashOf ld d)
                (Clusterer.phashOf ld d2))
            else none))
          ++ Clusterer.pairEdges cfg ld l from rfl]
    rw [List.mem_append, List.mem_filterMap, mem_pairEdges cfg ld l x y w,
      pair_sublist_cons_iff]
    constructor
    · rintro (⟨d2, hd2, hf⟩ | ⟨hsub, hw, hthr⟩)
      · by_cases hc : Clusterer._compute_hash_distance (Clusterer.phashOf ld d)
            (Clusterer.phashOf ld d2) ≤ cfg.NEAR_DUPLICATE_THRESHOLD
        · rw [if_pos hc] at hf
          have hx : x = d := (congrArg (fun t => t.1) (Option.some.inj hf)).symm
          have hy : y = d2 := (congrArg (fun t => t.2.1) (Option.some.inj hf)).symm
          have hw : w = Clusterer._compute_hash_distance (Clusterer.phashOf ld d)
              (Clusterer.phashOf ld d2) :=
            (congrArg (fun t => t.2.2) (Option.some.inj hf)).symm
          subst hx; subst hy
          exact ⟨Or.inl ⟨rfl, hd2⟩, hw, hw ▸ hc⟩
        · rw [if_neg hc] at hf
          cases hf
      · exact ⟨Or.inr hsub, hw, hthr⟩
    · rintro ⟨hsub | hsub, hw, hthr⟩
      · rcases hsub with ⟨rfl, hy⟩
        refine Or.inl ⟨y, hy, ?_⟩
        rw [if_pos (hw ▸ hthr), ← hw]
      · exact Or.inr ⟨hsub, hw, hthr⟩

theorem sublist_pair_of_mem :
    ∀ (l : List String), l.Nodup → ∀ (x y : String), x ∈ l → y ∈ l → x ≠ y →
      (List.Sublist [x, y] l ∨ List.Sublist [y, x] l)
  | [], _, x, _, hx, _, _ => absurd hx (List.not_mem_nil x)
  | d :: l, hnd, x, y, hx, hy, hxy => by
    have hnd0 := List.nodup_cons.mp hnd
    rcases List.mem_cons.mp hx with rfl | hx'
    · have hy' : y ∈ l := by
        rcases List.mem_cons.mp hy with h | h
        · exact absurd h.symm hxy
        · exact h
      exact Or.inl (List.Sublist.cons₂ x (List.singleton_sublist.mpr hy'))
    · rcases List.mem_cons.mp hy with rfl | hy'
      · exact Or.inr (List.Sublist.cons₂ y (List.singleton_sublist.mpr hx'))
      · rcases sublist_pair_of_mem l hnd0.2 x y hx' hy' hxy with h | h
        · exact Or.inl (List.Sublist.cons d h)
        · exact Or.inr (List.Sublist.cons d h)

end ClusterLemmas

section ImageLemmas

theorem compute_hashes_ok_iff (env : ImageProcessor.ImgEnv) (cfg : Config)
    (img : ImageProcessor.PILImage) (hs : Hashes) :
    ImageProcessor.compute_hashes env cfg img = Except.ok hs ↔
      (env.phashF (ImageProcessor.normalize_image cfg img) = Except.ok hs.phash
       ∧ env.dhashF (ImageProcessor.normalize_image cfg img) = Except.ok hs.dhash
       ∧ env.ahashF (ImageProcessor.normalize_image cfg img) = Except.ok hs.ahash
       ∧ env.whashF (ImageProcessor.normalize_image cfg img) = Except.ok hs.whash) := by
  constructor
  · intro h
    simp only [ImageProcessor.compute_hashes] at h
    cases hp : env.phashF (ImageProcessor.normalize_image cfg img) with
    | error e => rw [hp] at h; simp at h
    | ok p =>
      rw [hp] at h
      cases hd : env.dhashF (ImageProcessor.normalize_image cfg img) with
      | error e => rw [hd] at h; simp at h
      | ok d =>
        rw [hd] at h
        cases ha : env.ahashF (ImageProcessor.normalize_image cfg img) with
        | error e => rw [ha] at h; simp at h
        | ok a =>
          rw [ha] at h
          cases hw : env.whashF (ImageProcessor.normalize_image cfg img) with
          | error e => rw [hw] at h; simp at h
          | ok w =>
            rw [hw] at h
            have h' : ({ phash := p, dhash := d, ahash := a, whash := w } : Hashes) = hs := by
              simpa using h
            subst h'
            exact ⟨rfl, rfl, rfl, rfl⟩
  · rintro ⟨h1, h2, h3, h4⟩
    simp only [ImageProcessor.compute_hashes]
    rw [h1, h2, h3, h4]

end ImageLemmas

/-! ## The claims -/

/-- C1: for every input list of (distinct) domains and any positive batch
size, the extraction map aggregated over all batches is exactly one entry
per input domain, each mapped to a non-null URL; and whenever the
per-domain strategy chain fails — by raising, or by both strategies finding
nothing — `extract_logo_url` yields the deterministic fallback
`https://{domain}/favicon.ico` instead of failing the domain. -/
theorem c1_extraction_map_total (env : LogoExtractor.ChainEnv) (cfg : Config)
    (domains : List String) (hbs : 0 < cfg.BATCH_SIZE) (hnd : domains.Nodup) :
    Pipeline.extract_all_logos env cfg domains
      = domains.map (fun d => (d, some (LogoExtractor.extract_logo_url env d)))
    ∧ ∀ d : String,
        (env.chainRaises ("https://" ++ d) = true ∨
          (env.fromHtml ("https://" ++ d) = none
            ∧ env.commonPaths ("https://" ++ d) = none)) →
        LogoExtractor.extract_logo_url env d = ("https://" ++ d) ++ "/favicon.ico" := by
  constructor
  · unfold Pipeline.extract_all_logos
    have hflat := chunked_flatten cfg.BATCH_SIZE domains hbs
    rw [extract_all_foldl env (chunked cfg.BATCH_SIZE domains) []
      (by rw [hflat]; exact hnd) (fun x _ => List.not_mem_nil x)]
    rw [hflat, List.nil_append]
  · intro d hfail
    unfold LogoExtractor.extract_logo_url
    rcases hfail with hr | ⟨h1, h2⟩
    · simp [hr]
    · by_cases hr : env.chainRaises ("https://" ++ d) = true
      · simp [hr]
      · simp [hr, h1, h2]

/-- Witness for C1: a batch run over three concrete domains — one found by
the HTML strategy, one whose chain raises, one found by the common-path
strategy — yields one non-null entry per domain. -/
theorem c1_extraction_map_total_witness :
    Pipeline.extract_all_logos chainEnvW defaultConfig ["a.com", "b.com", "c.com"]
      = [("a.com", some "https://a.com/logo.png"),
         ("b.com", some "https://b.com/favicon.ico"),
         ("c.com", some "https://c.com/logo.png")] := by
  have h := (c1_extraction_map_total chainEnvW defaultConfig ["a.com", "b.com", "c.com"]
    (by decide) (by decide)).1
  rw [h]
  decide

/-- C2 counterexample: two primary hash codes of differing bit-length (64
and 16 bits; both parse successfully) are not treated as a fatal error — the
comparison silently computes the numeric sentinel distance 999. -/
theorem c2_counterexample_silent_sentinel :
    imagehash.hex_to_hash "ffffffffffffffff" = some (List.replicate 64 true)
    ∧ imagehash.hex_to_hash "ffff" = some (List.replicate 16 true)
    ∧ Clusterer._compute_hash_distance "ffffffffffffffff" "ffff" = 999 := by
  decide

/-- C2 (amended): when the two compared primary hash codes parse to bit
arrays of differing length, `_compute_hash_distance` catches the library's
`TypeError` and returns the sentinel distance 999 — which exceeds the
default near-duplicate threshold, so the pair never receives an edge — and
neither rejects the run nor skips the record. -/
theorem c2_mismatched_lengths_sentinel (h1 h2 : String) (b1 b2 : List Bool)
    (hp1 : imagehash.hex_to_hash h1 = some b1)
    (hp2 : imagehash.hex_to_hash h2 = some b2)
    (hlen : b1.length ≠ b2.length) :
    Clusterer._compute_hash_distance h1 h2 = 999
    ∧ defaultConfig.NEAR_DUPLICATE_THRESHOLD
        < Clusterer._compute_hash_distance h1 h2 := by
  have hd : Clusterer._compute_hash_distance h1 h2 = 999 := by
    unfold Clusterer._compute_hash_distance
    rw [hp1, hp2]
    show (match imagehash.imageHashSub b1 b2 with | some w => w | none => 999) = 999
    rw [show imagehash.imageHashSub b1 b2 = none from by
      unfold imagehash.imageHashSub; rw [if_neg hlen]]
  exact ⟨hd, by rw [hd]; decide⟩

/-- Witness for C2's amended statement: 16-bit versus 4-bit codes. -/
theorem c2_mismatched_lengths_sentinel_witness :
    Clusterer._compute_hash_distance "0000" "f" = 999
    ∧ defaultConfig.NEAR_DUPLICATE_THRESHOLD
        < Clusterer._compute_hash_distance "0000" "f" :=
  c2_mismatched_lengths_sentinel "0000" "f" (List.replicate 16 false)
    [true, true, true, true] (by decide) (by decide) (by decide)

/-- C3: for every fingerprint map (a dict, so its keys are distinct), the
returned clusters partition exactly the graph's node set — the domains whose
record carries a non-empty primary hash: a domain lies in some cluster iff it
lies in the node set (so no other domain appears in any cluster), and two
distinct clusters are disjoint. -/
theorem c3_clusters_partition (cfg : Config) (ld : List (String × Option LogoRec))
    (hnd : (ld.map Prod.fst).Nodup) :
    (∀ d : String,
      (∃ c ∈ Clusterer.cluster_by_similarity cfg ld, d ∈ c)
        ↔ d ∈ Clusterer.validDomains ld)
    ∧ (∀ c₁ ∈ Clusterer.cluster_by_similarity cfg ld,
        ∀ c₂ ∈ Clusterer.cluster_by_similarity cfg ld,
          c₁ ≠ c₂ → ∀ d : String, d ∈ c₁ → d ∉ c₂) := by
  have hperm := clusters_flatten_perm cfg ld
  constructor
  · intro d
    exact (List.mem_flatten.symm).trans hperm.mem_iff
  · have hndV := validDomains_nodup ld hnd
    have hndF : (Clusterer.cluster_by_similarity cfg ld).flatten.Nodup :=
      hperm.symm.nodup hndV
    have hpw := (List.nodup_flatten.mp hndF).2
    intro c₁ h₁ c₂ h₂ hne d hd₁ hd₂
    exact (List.Pairwise.forall (fun _ _ h => List.Disjoint.symm h) hpw h₁ h₂ hne) hd₁ hd₂

/-- Witness for C3 at a concrete map: three fingerprinted domains plus one
failed record. -/
theorem c3_clusters_partition_witness :
    (∀ d : String,
      (∃ c ∈ Clusterer.cluster_by_similarity defaultConfig ldBoundary, d ∈ c)
        ↔ d ∈ Clusterer.validDomains ldBoundary)
    ∧ (∀ c₁ ∈ Clusterer.cluster_by_similarity defaultConfig ldBoundary,
        ∀ c₂ ∈ Clusterer.cluster_by_similarity defaultConfig ldBoundary,
          c₁ ≠ c₂ → ∀ d : String, d ∈ c₁ → d ∉ c₂) :=
  c3_clusters_partition defaultConfig ldBoundary (by decide)

/-- C4: between any two distinct graph nodes an edge is present iff their
primary-hash Hamming distance is at most the configured near-duplicate
threshold (whose default is 5); the boundary is exact because the comparison
is `≤`. -/
theorem c4_edge_iff_threshold (cfg : Config) (ld : List (String × Option LogoRec))
    (hnd : (ld.map Prod.fst).Nodup) (x y : String)
    (hx : x ∈ Clusterer.validDomains ld) (hy : y ∈ Clusterer.validDomains ld)
    (hxy : x ≠ y) :
    (Clusterer.hasEdge cfg ld x y = true ↔
      Clusterer._compute_hash_distance (Clusterer.phashOf ld x) (Clusterer.phashOf ld y)
        ≤ cfg.NEAR_DUPLICATE_THRESHOLD)
    ∧ defaultConfig.NEAR_DUPLICATE_THRESHOLD = 5 := by
  refine ⟨?_, rfl⟩
  unfold Clusterer.hasEdge
  rw [List.any_eq_true]
  constructor
  · rintro ⟨e, he, hm⟩
    have hm' : (e.1 = x ∧ e.2.1 = y) ∨ (e.1 = y ∧ e.2.1 = x) := by
      simpa using hm
    rcases hm' with ⟨hex, hey⟩ | ⟨hex, hey⟩
    · have he' : (x, y, e.2.2) ∈ Clusterer.pairEdges cfg ld (Clusterer.validDomains ld) := by
        rw [← hex, ← hey]
        exact he
      have hc := (mem_pairEdges cfg ld _ x y e.2.2).mp he'
      exact hc.2.1 ▸ hc.2.2
    · have he' : (y, x, e.2.2) ∈ Clusterer.pairEdges cfg ld (Clusterer.validDomains ld) := by
        rw [← hex, ← hey]
        exact he
      have hc := (mem_pairEdges cfg ld _ y x e.2.2).mp he'
      rw [hash_distance_comm]
      exact hc.2.1 ▸ hc.2.2
  · intro hle
    rcases sublist_pair_of_mem _ (validDomains_nodup ld hnd) x y hx hy hxy with hs | hs
    · refine ⟨(x, y, Clusterer._compute_hash_distance (Clusterer.phashOf ld x)
          (Clusterer.phashOf ld y)),
        (mem_pairEdges cfg ld _ x y _).mpr ⟨hs, rfl, hle⟩, ?_⟩
      simp
    · refine ⟨(y, x, Clusterer._compute_hash_distance (Clusterer.phashOf ld y)
          (Clusterer.phashOf ld x)),
        (mem_pairEdges cfg ld _ y x _).mpr ⟨hs, rfl, ?_⟩, ?_⟩
      · rw [hash_distance_comm (Clusterer.phashOf ld y) (Clusterer.phashOf ld x)]
        exact hle
      · simp

/-- Witness for C4 at the boundary: concrete codes at distance exactly 5
(edge present) and exactly 6 (edge absent) from the same node. -/
theorem c4_edge_iff_threshold_witness :
    ((Clusterer.hasEdge defaultConfig ldBoundary "a.com" "b.com" = true ↔
        Clusterer._compute_hash_distance (Clusterer.phashOf ldBoundary "a.com")
          (Clusterer.phashOf ldBoundary "b.com") ≤ defaultConfig.NEAR_DUPLICATE_THRESHOLD)
      ∧ defaultConfig.NEAR_DUPLICATE_THRESHOLD = 5)
    ∧ ((Clusterer.hasEdge defaultConfig ldBoundary "a.com" "c.com" = true ↔
        Clusterer._compute_hash_distance (Clusterer.phashOf ldBoundary "a.com")
          (Clusterer.phashOf ldBoundary "c.com") ≤ defaultConfig.NEAR_DUPLICATE_THRESHOLD)
      ∧ defaultConfig.NEAR_DUPLICATE_THRESHOLD = 5) :=
  ⟨c4_edge_iff_threshold defaultConfig ldBoundary (by decide) "a.com" "b.com"
      (by decide) (by decide) (by decide),
   c4_edge_iff_threshold defaultConfig ldBoundary (by decide) "a.com" "c.com"
      (by decide) (by decide) (by decide)⟩

/-- Concrete boundary behaviour at the default threshold: distance 5 yields
an edge, distance 6 does not, and the failed record stays outside the node
set. -/
theorem boundary_concrete :
    Clusterer._compute_hash_distance "0000000000000000" "000000000000001f" = 5
    ∧ Clusterer._compute_hash_distance "0000000000000000" "000000000000003f" = 6
    ∧ Clusterer.hasEdge defaultConfig ldBoundary "a.com" "b.com" = true
    ∧ Clusterer.hasEdge defaultConfig ldBoundary "a.com" "c.com" = false
    ∧ Clusterer.validDomains ldBoundary = ["a.com", "b.com", "c.com"] := by
  decide

/-- C5: for every URL map (a dict, so distinct keys), positive chunk size and
any completion order, domains with an empty URL produce no entry, and the
fingerprint map holds an entry `r` for a domain exactly when that domain's
non-empty URL was in the map and `process_logo` returned `r` on it; a failed
domain is absent, never present with an error value. -/
theorem c5_fingerprint_map_entries (env : ImageProcessor.ImgEnv) (cfg : Config)
    (sched : List (String × String) → List (String × String))
    (urls : List (String × Option String))
    (hc : 0 < cfg.HASH_CHUNK_SIZE) (hs : ∀ l, List.Perm (sched l) l)
    (hnd : (urls.map Prod.fst).Nodup) :
    (∀ (d : String) (r : LogoRec),
      (lookupD (Pipeline.process_all_images env cfg sched urls) d = some r ↔
        ∃ u, (d, some u) ∈ urls ∧ u ≠ ""
          ∧ ImageProcessor.process_logo env cfg u = some r))
    ∧ (∀ d : String, ((d, none) ∈ urls ∨ (d, some "") ∈ urls) →
        lookupD (Pipeline.process_all_images env cfg sched urls) d = none) := by
  have hndItems : ((Pipeline.workItems urls).map Prod.fst).Nodup := by
    rw [workItems_eq_filterMap]
    exact (keys_filterMap_sublist Pipeline.workItemOf workItemOf_key urls).nodup hnd
  have hndCanon :
      (((Pipeline.workItems urls).filterMap (fingerprintOf env cfg)).map Prod.fst).Nodup :=
    (keys_filterMap_sublist _ (fingerprintOf_key env cfg) _).nodup hndItems
  have hkey : ∀ (d : String) (r : LogoRec),
      (lookupD (Pipeline.process_all_images env cfg sched urls) d = some r ↔
        ∃ u, (d, some u) ∈ urls ∧ u ≠ ""
          ∧ ImageProcessor.process_logo env cfg u = some r) := by
    intro d r
    rw [process_all_images_eq env cfg sched urls hc hs hnd d]
    rw [lookupD_eq_some_iff _ hndCanon d r]
    rw [List.mem_filterMap]
    constructor
    · rintro ⟨⟨d', u⟩, hmem, hf⟩
      unfold fingerprintOf at hf
      cases hpl : ImageProcessor.process_logo env cfg u with
      | none =>
        rw [show ((d', u) : String × String).2 = u from rfl, hpl] at hf
        cases hf
      | some r' =>
        rw [show ((d', u) : String × String).2 = u from rfl, hpl] at hf
        have hd' : d' = d := congrArg Prod.fst (Option.some.inj hf)
        have hr' : r' = r := congrArg Prod.snd (Option.some.inj hf)
        subst hd'
        subst hr'
        have hw := (mem_workItems urls d' u).mp hmem
        exact ⟨u, hw.1, hw.2, hpl⟩
    · rintro ⟨u, hmem, hu, hpl⟩
      refine ⟨(d, u), (mem_workItems urls d u).mpr ⟨hmem, hu⟩, ?_⟩
      unfold fingerprintOf
      rw [show ((d, u) : String × String).2 = u from rfl, hpl]
      rfl
  refine ⟨hkey, ?_⟩
  intro d hbad
  cases hv : lookupD (Pipeline.process_all_images env cfg sched urls) d with
  | none => rfl
  | some r =>
    obtain ⟨u, hmem, hu, _⟩ := (hkey d r).mp hv
    rcases hbad with hb | hb
    · exact absurd (lookupD_value_unique urls hnd d (some u) none hmem hb) (by simp)
    · exact absurd (Option.some.inj
        (lookupD_value_unique urls hnd d (some u) (some "") hmem hb)) hu

/-- Witness for C5 at a concrete URL map with a success, an HTTP failure, an
empty URL and a null URL, scheduled in input order. -/
theorem c5_fingerprint_map_entries_witness :
    (∀ (d : String) (r : LogoRec),
      (lookupD (Pipeline.process_all_images imgEnvW defaultConfig (fun l => l) urlsW) d
          = some r ↔
        ∃ u, (d, some u) ∈ urlsW ∧ u ≠ ""
          ∧ ImageProcessor.process_logo imgEnvW defaultConfig u = some r))
    ∧ (∀ d : String, ((d, none) ∈ urlsW ∨ (d, some "") ∈ urlsW) →
        lookupD (Pipeline.process_all_images imgEnvW defaultConfig (fun l => l) urlsW) d
          = none) :=
  c5_fingerprint_map_entries imgEnvW defaultConfig (fun l => l) urlsW
    (by decide) (fun l => List.Perm.refl l) (by decide)

/-- C6: when `process_logo` succeeds on a URL, the record holds the four
hash codes computed over the normalized image of the downloaded original,
the original pre-resize width and height, and the detected format; the
download yields nothing on a non-200 status; validation fails when either
original dimension is below `MIN_IMAGE_SIZE`, whose default is 16. -/
theorem c6_record_faithful (env : ImageProcessor.ImgEnv) (cfg : Config) (url : String) :
    (∀ rec : LogoRec, ImageProcessor.process_logo env cfg url = some rec →
      ∃ img : ImageProcessor.PILImage,
        ImageProcessor.download_image env cfg url = some img
        ∧ rec.url = url
        ∧ rec.width = img.width ∧ rec.height = img.height ∧ rec.format = img.format
        ∧ env.phashF (ImageProcessor.normalize_image cfg img) = Except.ok rec.hashes.phash
        ∧ env.dhashF (ImageProcessor.normalize_image cfg img) = Except.ok rec.hashes.dhash
        ∧ env.ahashF (ImageProcessor.normalize_image cfg img) = Except.ok rec.hashes.ahash
        ∧ env.whashF (ImageProcessor.normalize_image cfg img) = Except.ok rec.hashes.whash)
    ∧ (∀ status body : Nat, env.get url = some (status, body) → status ≠ 200 →
        ImageProcessor.download_image env cfg url = none)
    ∧ (∀ (body : Nat) (img : ImageProcessor.PILImage),
        env.get url = some (200, body) → env.decode body = some img →
        (img.width < cfg.MIN_IMAGE_SIZE ∨ img.height < cfg.MIN_IMAGE_SIZE) →
        ImageProcessor.download_image env cfg url = none)
    ∧ defaultConfig.MIN_IMAGE_SIZE = 16 := by
  refine ⟨?_, ?_, ?_, rfl⟩
  · intro rec hrec
    unfold ImageProcessor.process_logo at hrec
    cases hdl : ImageProcessor.download_image env cfg url with
    | none => rw [hdl] at hrec; simp at hrec
    | some img =>
      rw [hdl] at hrec
      refine ⟨img, rfl, ?_⟩
      have hrec2 : (match ImageProcessor.compute_hashes env cfg img with
          | Except.error _ => (none : Option LogoRec)
          | Except.ok hs =>
            some ⟨url, hs, img.width, img.height, img.format⟩) = some rec := hrec
      cases hch : ImageProcessor.compute_hashes env cfg img with
      | error e => rw [hch] at hrec2; simp at hrec2
      | ok hs =>
        rw [hch] at hrec2
        have heq : (⟨url, hs, img.width, img.height, img.format⟩ : LogoRec) = rec :=
          Option.some.inj hrec2
        subst heq
        have hcodes := (compute_hashes_ok_iff env cfg img hs).mp hch
        exact ⟨rfl, rfl, rfl, rfl, hcodes.1, hcodes.2.1, hcodes.2.2.1, hcodes.2.2.2⟩
  · intro status body hget hstat
    simp [ImageProcessor.download_image, hget, hstat]
  · intro body img hget hdec hsmall
    have hv : ImageProcessor._validate_image cfg img = false := by
      unfold ImageProcessor._validate_image
      rcases hsmall with h | h <;> simp [h]
    simp [ImageProcessor.download_image, hget, hdec, hv]

/-- Concrete checks of the fetch-and-fingerprint path: a 404 URL produces no
record, a served and decodable image produces the full record with the
original 100 × 50 size and PNG format. -/
theorem process_logo_concrete :
    ImageProcessor.process_logo imgEnvW defaultConfig "https://bad.com/logo.png" = none
    ∧ ImageProcessor.process_logo imgEnvW defaultConfig "https://ok.com/logo.png"
        = some { url := "https://ok.com/logo.png",
                 hashes := { phash := "aaaaaaaaaaaaaaaa", dhash := "bbbbbbbbbbbbbbbb",
                             ahash := "cccccccccccccccc", whash := "dddddddddddddddd" },
                 width := 100, height := 50, format := some "PNG" } := by
  decide

/-- C7: two runs of the hashing coordinator over the same URL map with the
same per-URL outcomes, differing only in chunk size, concurrency limit and
per-chunk completion order, give fingerprint maps with the same entries —
the same key set and the same record (hence the same hash codes) for every
key. -/
theorem c7_schedule_independence (env : ImageProcessor.ImgEnv) (cfg : Config)
    (c₂ m₂ : Nat)
    (sched₁ sched₂ : List (String × String) → List (String × String))
    (urls : List (String × Option String))
    (hc₁ : 0 < cfg.HASH_CHUNK_SIZE) (hc₂ : 0 < c₂)
    (hs₁ : ∀ l, List.Perm (sched₁ l) l) (hs₂ : ∀ l, List.Perm (sched₂ l) l)
    (hnd : (urls.map Prod.fst).Nodup) :
    ∀ d : String,
      lookupD (Pipeline.process_all_images env cfg sched₁ urls) d
        = lookupD (Pipeline.process_all_images env
            { cfg with HASH_CHUNK_SIZE := c₂, MAX_CONCURRENT := m₂ } sched₂ urls) d := by
  intro d
  rw [process_all_images_eq env cfg sched₁ urls hc₁ hs₁ hnd d]
  rw [process_all_images_eq env { cfg with HASH_CHUNK_SIZE := c₂, MAX_CONCURRENT := m₂ }
    sched₂ urls hc₂ hs₂ hnd d]
  rfl

/-- Witness for C7: chunk size 200 with in-order completion against chunk
size 1, concurrency 3, reversed completion, on the concrete URL map. -/
theorem c7_schedule_independence_witness :
    lookupD (Pipeline.process_all_images imgEnvW defaultConfig (fun l => l) urlsW) "ok.com"
      = lookupD (Pipeline.process_all_images imgEnvW
          { defaultConfig with HASH_CHUNK_SIZE := 1, MAX_CONCURRENT := 3 }
          (fun l => l.reverse) urlsW) "ok.com"
    ∧ lookupD (Pipeline.process_all_images imgEnvW defaultConfig (fun l => l) urlsW)
          "bad.com"
      = lookupD (Pipeline.process_all_images imgEnvW
          { defaultConfig with HASH_CHUNK_SIZE := 1, MAX_CONCURRENT := 3 }
          (fun l => l.reverse) urlsW) "bad.com" :=
  ⟨c7_schedule_independence imgEnvW defaultConfig 1 3 (fun l => l) (fun l => l.reverse)
      urlsW (by decide) (by decide) (fun l => List.Perm.refl l)
      (fun l => l.reverse_perm) (by decide) "ok.com",
   c7_schedule_independence imgEnvW defaultConfig 1 3 (fun l => l) (fun l => l.reverse)
      urlsW (by decide) (by decide) (fun l => List.Perm.refl l)
      (fun l => l.reverse_perm) (by decide) "bad.com"⟩

/-- C9: the hash distance of `_compute_hash_distance` is symmetric on every
pair of hash strings — parse failures, length mismatches (both yielding the
sentinel) and genuine Hamming distances alike. -/
theorem c9_distance_symmetric (a b : String) :
    Clusterer._compute_hash_distance a b = Clusterer._compute_hash_distance b a :=
  hash_distance_comm a b

/-- C10: `normalize_image` always returns an image of exactly
`NORMALIZE_SIZE × NORMALIZE_SIZE` (default 64) whose mode is RGB, L or RGBA;
the palette branch is unreachable — after the first conversion the mode is
never `P`, so `normalize_image` equals its palette-branch-free variant on
every image. -/
theorem c10_normalize_mode (cfg : Config) (img : ImageProcessor.PILImage) :
    (ImageProcessor.normalize_image cfg img).width = cfg.NORMALIZE_SIZE
    ∧ (ImageProcessor.normalize_image cfg img).height = cfg.NORMALIZE_SIZE
    ∧ ((ImageProcessor.normalize_image cfg img).mode = "RGB"
        ∨ (ImageProcessor.normalize_image cfg img).mode = "L"
        ∨ (ImageProcessor.normalize_image cfg img).mode = "RGBA")
    ∧ (ImageProcessor.firstConvert img).mode ≠ "P"
    ∧ ImageProcessor.normalize_image cfg img = ImageProcessor.normalize_image_noP cfg img
    ∧ defaultConfig.NORMALIZE_SIZE = 64 := by
  have hmode : (ImageProcessor.firstConvert img).mode = "RGB"
      ∨ (ImageProcessor.firstConvert img).mode = "L"
      ∨ (ImageProcessor.firstConvert img).mode = "RGBA" := by
    unfold ImageProcessor.firstConvert
    by_cases h : img.mode ∈ (["RGB", "L", "RGBA"] : List String)
    · rw [if_neg (not_not_intro h)]
      simpa using h
    · rw [if_pos h]
      exact Or.inl rfl
  have hnotP : (ImageProcessor.firstConvert img).mode ≠ "P" := by
    rcases hmode with h | h | h <;> rw [h] <;> decide
  have hskip : ImageProcessor.normalize_image cfg img
      = ImageProcessor.normalize_image_noP cfg img := by
    show ImageProcessor.resize cfg.NORMALIZE_SIZE cfg.NORMALIZE_SIZE
        (if (ImageProcessor.firstConvert img).mode = "P"
         then ImageProcessor.convert "RGB"
           (ImageProcessor.convert "RGBA" (ImageProcessor.firstConvert img))
         else ImageProcessor.firstConvert img)
      = ImageProcessor.normalize_image_noP cfg img
    rw [if_neg hnotP]
    rfl
  refine ⟨?_, ?_, ?_, hnotP, hskip, rfl⟩
  · rw [hskip]; rfl
  · rw [hskip]; rfl
  · rw [hskip]
    exact hmode

/-- No three hash codes can realise pairwise distances 3, 4 and 6: a value
different from the sentinel 999 forces both codes to parse with equal
lengths, so all three values are genuine Hamming distances, whose total over
a triangle is always even — and 3 + 4 + 6 is odd.  The specification's C8
scenario is therefore unsatisfiable as stated; distances 3, 4, 7 realise the
intended picture (see `scenario_distances_3_4_7`). -/
theorem no_hash_triple_3_4_6 (a b c : String) :
    ¬(Clusterer._compute_hash_distance a b = 3
      ∧ Clusterer._compute_hash_distance b c = 4
      ∧ Clusterer._compute_hash_distance a c = 6) := by
  rintro ⟨hab, hbc, hac⟩
  obtain ⟨b1, b2, hpa, hpb, hl12, hh12⟩ := distance_eq_hamming a b 3 hab (by omega)
  obtain ⟨b2', b3, hpb', hpc, hl23, hh23⟩ := distance_eq_hamming b c 4 hbc (by omega)
  obtain ⟨b1', b3', hpa', hpc', _, hh13⟩ := distance_eq_hamming a c 6 hac (by omega)
  have e1 : b1 = b1' := Option.some.inj (hpa.symm.trans hpa')
  have e2 : b2 = b2' := Option.some.inj (hpb.symm.trans hpb')
  have e3 : b3 = b3' := Option.some.inj (hpc.symm.trans hpc')
  subst e1
  subst e2
  subst e3
  have heven := hamming_triple_even b1 b2 b3 hl12 hl23
  rw [hh12, hh23, hh13] at heven
  omega

/-- Distances 3, 4 and 7 do realise the intended scenario: edges a-b and
b-c, no edge a-c, and a single cluster of all three domains closed through
b even though the a-c distance exceeds the threshold. -/
theorem scenario_distances_3_4_7 :
    Clusterer._compute_hash_distance "0000000000000000" "0000000000000007" = 3
    ∧ Clusterer._compute_hash_distance "0000000000000007" "000000000000007f" = 4
    ∧ Clusterer._compute_hash_distance "0000000000000000" "000000000000007f" = 7
    ∧ Clusterer.hasEdge defaultConfig ldABC "a.com" "b.com" = true
    ∧ Clusterer.hasEdge defaultConfig ldABC "b.com" "c.com" = true
    ∧ Clusterer.hasEdge defaultConfig ldABC "a.com" "c.com" = false
    ∧ Clusterer.cluster_by_similarity defaultConfig ldABC
        = [["a.com", "b.com", "c.com"]] := by
  decide

end LogoSim
